import Mathlib

/-!
Shallow embedding of the client-side search engine of this repository
(src/themes/bckt3/assets/js/minisearch.js): the MiniSearch class
(inverted index, add, addAll, tokenize, search, lookupTerm, intersection,
scoreDocument, collectAll) and the controller helpers filterDocument,
escapeHtml and highlightText.

Modelling conventions, stated once:
* JavaScript Map and Set are insertion ordered; both are modelled as
  association lists (respectively lists) where set/add keeps the position
  of an existing key and appends a new key at the end, and iteration order
  is list order.
* Array.prototype.sort is a stable sort under a consistent comparator;
  it is modelled by the stable insertion sort isort below, with the
  comparator le a b meaning compare(a, b) is not positive.  For a total
  preorder the stable sorted permutation is unique, so any stable sort is
  extensionally the JS one.
* Strings are Lean strings; the tokenizer lower-cases and extracts maximal
  runs of letters and digits.  Case folding and the letter/digit classes
  are modelled at ASCII precision (Char.toLower, Char.isAlphanum), which
  agrees with the JS behaviour on the ASCII inputs the claims are about.
  The JS fallback branch (ASCII letters/digits when the Unicode match
  yields nothing) never changes the result because the ASCII class is a
  subclass of the Unicode one, so a single pass is modelled.
* A JS value that can be undefined or null is modelled as an Option,
  with none for undefined/null.
* The JS number used as timestamp is modelled as Int; a non-number
  timestamp is modelled as none and mapped to 0 where the code does.
-/

/-- A field value on a document: either a string or an array of strings
(the code joins an array with single spaces before tokenizing, via
asArray(value).join(' ')). -/
inductive FieldValue where
  | str (s : String)
  | arr (l : List String)
deriving DecidableEq, Repr

/-- A document as the engine and the controller see it.  The dynamic
field access document[field] used for indexing is modelled by the
association list docFields; the properties the controller filter and the
sort comparators read are explicit typed fields. -/
structure Doc where
  id : Option String
  docFields : List (String × FieldValue)
  language : Option String
  type : Option String
  tags : Option (List String)
  date_iso : Option String
  timestamp : Option Int
deriving DecidableEq, Repr

/-- The argument of add: either not an object (null, undefined or a
primitive - all of these take the early return at the top of add) or an
object document. -/
inductive AddArg where
  | nonObject
  | object (d : Doc)
deriving DecidableEq, Repr

/-- The argument of addAll: the code checks Array.isArray and returns
silently when the argument is not an array. -/
inductive AddAllArg where
  | notArray
  | array (l : List AddArg)
deriving DecidableEq, Repr

/-- JS Map.get: first (unique) binding of the key. -/
def mapGet {α : Type} (m : List (String × α)) (k : String) : Option α :=
  match m with
  | [] => none
  | (k', v) :: rest => if k' = k then some v else mapGet rest k

/-- JS Map.set: overwrite in place when the key exists, append otherwise
(insertion order preserved). -/
def mapSet {α : Type} (m : List (String × α)) (k : String) (v : α) :
    List (String × α) :=
  match m with
  | [] => [(k, v)]
  | (k', v') :: rest =>
    if k' = k then (k, v) :: rest else (k', v') :: mapSet rest k v

/-- JS Set.add: keep the existing element, append a new one. -/
def addUnique (l : List String) (x : String) : List String :=
  if l.contains x then l else l ++ [x]

/-- Order preserving deduplication, first occurrence kept: the order in
which ids enter a JS Set. -/
def dedupList (l : List String) : List String :=
  l.foldl addUnique []

/-- Array.prototype.join(' '). -/
def joinSpace : List String → String
  | [] => ""
  | [s] => s
  | s :: rest => s ++ " " ++ joinSpace rest

/-- asArray(value).join(' ') for a defined, non-null field value. -/
def FieldValue.joined : FieldValue → String
  | .str s => s
  | .arr l => joinSpace l

/-- p.isPrefixOf s on the character level: String.prototype.startsWith. -/
def strStartsWith (s p : String) : Bool :=
  p.data.isPrefixOf s.data

/-- Stable insertion step of the sort model: x goes before the first
element y with le x y. -/
def insertLe {α : Type} (le : α → α → Bool) (x : α) : List α → List α
  | [] => [x]
  | y :: ys => if le x y then x :: y :: ys else y :: insertLe le x ys

/-- Stable insertion sort modelling Array.prototype.sort with a
consistent comparator (le a b iff compare(a, b) <= 0). -/
def isort {α : Type} (le : α → α → Bool) : List α → List α
  | [] => []
  | x :: xs => insertLe le x (isort le xs)

/-- The MiniSearch instance state: the configured field list, the
token -> (docId -> count) inverted index, and the id -> document store. -/
structure MiniSearch where
  fields : List String
  invertedIndex : List (String × List (String × Nat))
  documents : List (String × Doc)
deriving DecidableEq, Repr

/-- One entry of a match group: an index token together with its
docId -> count map ({ token, docs } in the code). -/
structure TokenMatch where
  token : String
  docs : List (String × Nat)
deriving DecidableEq, Repr

/-- A search result: the document plus the attached numeric score
(Object.assign({ score }, document)). -/
structure SearchResult where
  score : Nat
  doc : Doc
deriving DecidableEq, Repr

/-- The options object of search: an optional filter predicate and the
prefix-matching flag (Boolean(options.prefix)). -/
structure SearchOptions where
  filter : Option (Doc → Bool)
  pfx : Bool

/-- Maximal runs of letters/digits in a character list; the accumulator
holds the current run reversed. -/
def tokenRuns : List Char → List Char → List (List Char)
  | [], acc => if acc.isEmpty then [] else [acc.reverse]
  | c :: cs, acc =>
    if c.isAlphanum then tokenRuns cs (c :: acc)
    else if acc.isEmpty then tokenRuns cs []
    else acc.reverse :: tokenRuns cs []

/-- MiniSearch.prototype.tokenize: a falsy input (null, undefined, the
empty string) gives no tokens; otherwise lower-case and extract maximal
runs of letters and digits.  The final per-token toLowerCase of the code
is the identity here because the whole text was already lowered. -/
def MiniSearch.tokenize (raw : Option String) : List String :=
  match raw with
  | none => []
  | some s =>
    if s = "" then []
    else (tokenRuns (s.data.map Char.toLower) []).map (fun cs => String.mk cs)

/-- One token increment of add: fetch or create the docId map of the
token, then bump the count of this id by one. -/
def bumpToken (idx : List (String × List (String × Nat))) (token id : String) :
    List (String × List (String × Nat)) :=
  let docMap := (mapGet idx token).getD []
  mapSet idx token (mapSet docMap id ((mapGet docMap id).getD 0 + 1))

/-- The indexing pass of add over one field value: bump every token of
the tokenized field text. -/
def indexTokens (idx : List (String × List (String × Nat)))
    (tokens : List String) (id : String) : List (String × List (String × Nat)) :=
  tokens.foldl (fun acc t => bumpToken acc t id) idx

/-- MiniSearch.prototype.add.  A non-object argument returns the state
unchanged; an object without id is the invalid-document error; otherwise
the document is stored under its id and every configured, present,
non-null field is tokenized and counted into the inverted index. -/
def MiniSearch.add (ms : MiniSearch) (arg : AddArg) : Except String MiniSearch :=
  match arg with
  | .nonObject => .ok ms
  | .object document =>
    match document.id with
    | none => .error "MiniSearch: document is missing id field"
    | some id =>
      let docs := mapSet ms.documents id document
      let idx := ms.fields.foldl
        (fun acc field =>
          match mapGet document.docFields field with
          | none => acc
          | some value =>
            indexTokens acc (MiniSearch.tokenize (some value.joined)) id)
        ms.invertedIndex
      .ok { ms with documents := docs, invertedIndex := idx }

/-- The loop body of addAll over an array: applies add in order; a raised
error propagates, so later elements are never reached. -/
def MiniSearch.addAllList (ms : MiniSearch) : List AddArg → Except String MiniSearch
  | [] => .ok ms
  | d :: rest =>
    match ms.add d with
    | .ok ms1 => ms1.addAllList rest
    | .error e => .error e

/-- MiniSearch.prototype.addAll: a non-array argument is a silent no-op. -/
def MiniSearch.addAll (ms : MiniSearch) : AddAllArg → Except String MiniSearch
  | .notArray => .ok ms
  | .array l => ms.addAllList l

/-- MiniSearch.prototype.lookupTerm: without prefix, the single exact
entry when present; with prefix, every index entry whose token starts
with the term, in index order. -/
def MiniSearch.lookupTerm (ms : MiniSearch) (term : String) (pfx : Bool) :
    List TokenMatch :=
  if !pfx then
    match mapGet ms.invertedIndex term with
    | some entry => [{ token := term, docs := entry }]
    | none => []
  else
    ms.invertedIndex.filterMap
      (fun p => if strStartsWith p.1 term then some { token := p.1, docs := p.2 } else none)

/-- The per-group id set of intersection: all doc ids of all matches of
the group, deduplicated in encounter order (the ids Set of the code). -/
def groupIds (g : List TokenMatch) : List String :=
  dedupList (g.flatMap (fun m => m.docs.map Prod.fst))

/-- The running intersection loop of MiniSearch.prototype.intersection,
with the early break once the accumulator is empty. -/
def intersectionAux (acc : List String) : List (List TokenMatch) → List String
  | [] => acc
  | g :: rest =>
    let ids := groupIds g
    let next := acc.filter (fun id => ids.contains id)
    if next.isEmpty then next else intersectionAux next rest

/-- MiniSearch.prototype.intersection: the first group seeds the
accumulator (null accumulator in the code), later groups filter it. -/
def MiniSearch.intersection : List (List TokenMatch) → List String
  | [] => []
  | g :: rest =>
    let ids := groupIds g
    if ids.isEmpty then ids else intersectionAux ids rest

/-- MiniSearch.prototype.scoreDocument: sum of the stored counts of this
id over every match of every group.  The code guards with if (count),
which only skips adding zero, so adding the defaulted count is equal. -/
def MiniSearch.scoreDocument (id : String) (groups : List (List TokenMatch)) : Nat :=
  groups.foldl
    (fun s g => g.foldl (fun s2 m => s2 + ((mapGet m.docs id).getD 0)) s) 0

/-- filterFn && !filterFn(document) of the code: an absent filter lets
every document through. -/
def passFilter (fl : Option (Doc → Bool)) (d : Doc) : Bool :=
  match fl with
  | none => true
  | some f => f d

/-- typeof timestamp === 'number' ? timestamp : 0. -/
def tsZ (d : Doc) : Int :=
  match d.timestamp with
  | some t => t
  | none => 0

/-- The search result comparator as a le test: compare(a, b) <= 0 where
compare is (a, b) => b.score - a.score, ties by descending timestamp. -/
def resultLe (a b : SearchResult) : Bool :=
  if a.score = b.score then decide (tsZ b.doc ≤ tsZ a.doc)
  else decide (b.score < a.score)

/-- The collectAll comparator as a le test: descending timestamp only. -/
def collectLe (a b : SearchResult) : Bool :=
  decide (tsZ b.doc ≤ tsZ a.doc)

/-- The result construction loop of search: walk the candidate ids, skip
ids without a stored document and documents failing the filter, attach
the score. -/
def MiniSearch.buildResults (ms : MiniSearch) (cand : List String)
    (groups : List (List TokenMatch)) (fl : Option (Doc → Bool)) :
    List SearchResult :=
  cand.filterMap (fun id =>
    match mapGet ms.documents id with
    | none => none
    | some document =>
      if passFilter fl document then
        some { score := MiniSearch.scoreDocument id groups, doc := document }
      else none)

/-- MiniSearch.prototype.collectAll: every stored document passing the
filter, scored 0, sorted by descending timestamp. -/
def MiniSearch.collectAll (ms : MiniSearch) (fl : Option (Doc → Bool)) :
    List SearchResult :=
  isort collectLe
    (((ms.documents.map Prod.snd).filter (fun d => passFilter fl d)).map
      (fun d => { score := 0, doc := d }))

/-- MiniSearch.prototype.search. -/
def MiniSearch.search (ms : MiniSearch) (query : Option String)
    (opts : SearchOptions) : List SearchResult :=
  let terms := MiniSearch.tokenize query
  if terms.isEmpty then ms.collectAll opts.filter
  else
    let groups := terms.map (fun t => ms.lookupTerm t opts.pfx)
    if groups.any (fun g => g.isEmpty) then []
    else
      let cand := MiniSearch.intersection groups
      if cand.isEmpty then []
      else isort resultLe (ms.buildResults cand groups opts.filter)

/-- The current facet selections of the controller: each select value is
a string, the empty string being the unset "All ..." option (and also the
value read when the select element is absent, since a missing element
short-circuits to a falsy value in the code). -/
structure Filters where
  language : String
  type : String
  tag : String
  year : String
deriving DecidableEq, Repr

/-- doc.date_iso ? doc.date_iso.substring(0, 4) : '' of the code;
substring(0, 4) of a shorter string is the whole string, as String.take. -/
def docYear (d : Doc) : String :=
  match d.date_iso with
  | some iso => if iso = "" then "" else String.mk (iso.data.take 4)
  | none => ""

/-- filterDocument of the controller, over the current facet selections.
The null-document guard at the top of the code is unreachable here
because the engine only passes stored documents; every selection is
tested with JS truthiness on the select value (only the empty string is
falsy), and an unset selection imposes no constraint. -/
def filterDocument (f : Filters) (doc : Doc) : Bool :=
  if f.language ≠ "" && !(match doc.language with
      | some l => l = f.language
      | none => false) then false
  else if f.type ≠ "" && !((doc.type.getD "") = f.type) then false
  else if f.tag ≠ "" && !(match doc.tags with
      | some l => l.contains f.tag
      | none => false) then false
  else if f.year ≠ "" && !(docYear doc = f.year) then false
  else true

/-- The per-character expansion of escapeHtml. -/
def escapeChar (c : Char) : List Char :=
  if c = '&' then "&amp;".data
  else if c = '<' then "&lt;".data
  else if c = '>' then "&gt;".data
  else if c = '"' then "&quot;".data
  else if c = Char.ofNat 39 then "&#39;".data
  else [c]

/-- escapeHtml of the controller: replace the five special characters. -/
def escapeHtml (s : String) : String :=
  String.mk (s.data.flatMap escapeChar)

/-- Case-insensitive prefix test of a token against a text position,
modelling the i flag of the highlight pattern at ASCII precision. -/
def ciIsPrefixAt : List Char → List Char → Bool
  | [], _ => true
  | _ :: _, [] => false
  | t :: ts, c :: cs => t.toLower = c.toLower && ciIsPrefixAt ts cs

/-- One global case-insensitive replace of highlighted.replace(pattern,
mark): scan left to right, wrap each non-overlapping occurrence of the
token (the captured text keeps the case of the scanned string, as $1
does), continue after the match.  The fuel argument bounds recursion;
text.length steps always suffice because every step consumes at least
one character (the token is non-empty here: filter(Boolean) removed
empty strings).  escapeRegex of the code only makes the token literal in
the pattern, which literal matching models directly. -/
def hlAux (tok : List Char) : Nat → List Char → List Char
  | 0, text => text
  | _ + 1, [] => []
  | fuel + 1, c :: rest =>
    if ciIsPrefixAt tok (c :: rest) then
      "<mark>".data ++ (c :: rest).take tok.length ++ "</mark>".data
        ++ hlAux tok fuel ((c :: rest).drop tok.length)
    else c :: hlAux tok fuel rest

/-- All occurrences of one token wrapped in mark elements. -/
def replaceToken (text : List Char) (tok : List Char) : List Char :=
  hlAux tok text.length text

/-- !source.trim() of the code: true exactly when the trimmed string is
empty, that is when every character is whitespace. -/
def isBlank (s : String) : Bool :=
  s.data.all (fun c => c.isWhitespace)

/-- The token length comparator of highlightText as a le test:
(a, b) => b.length - a.length, so longer tokens come first. -/
def tokLenLe (a b : String) : Bool :=
  decide (b.length ≤ a.length)

/-- highlightText of the controller: escape first; with no tokens or a
blank text return just the escaped text; otherwise drop empty tokens,
sort the rest longest first (stable), and fold the global replace of
each token over the escaped text in that order. -/
def highlightText (text : Option String) (tokens : List String) : String :=
  let source := text.getD ""
  if isBlank source || tokens.isEmpty then escapeHtml source
  else
    let sorted := isort tokLenLe (tokens.filter (fun t => t ≠ ""))
    String.mk (sorted.foldl (fun acc tok => replaceToken acc tok.data)
      (escapeHtml source).data)

/-! Lemmas about the stable sort model. -/

theorem insertLe_perm {α : Type} (le : α → α → Bool) (x : α) (l : List α) :
    List.Perm (insertLe le x l) (x :: l) := by
  induction l with
  | nil => simp [insertLe]
  | cons y ys ih =>
    simp only [insertLe]
    by_cases h : le x y
    · simp [h]
    · simp only [h, if_neg]
      exact ((ih.cons y).trans (List.Perm.swap x y ys))

theorem isort_perm {α : Type} (le : α → α → Bool) (l : List α) :
    List.Perm (isort le l) l := by
  induction l with
  | nil => simp [isort]
  | cons x xs ih => exact (insertLe_perm le x (isort le xs)).trans (ih.cons x)

theorem mem_isort {α : Type} (le : α → α → Bool) (a : α) (l : List α) :
    a ∈ isort le l ↔ a ∈ l :=
  (isort_perm le l).mem_iff

theorem mem_insertLe {α : Type} (le : α → α → Bool) (a x : α) (l : List α) :
    a ∈ insertLe le x l ↔ a = x ∨ a ∈ l := by
  rw [(insertLe_perm le x l).mem_iff]; simp

theorem pairwise_insertLe {α : Type} (le : α → α → Bool)
    (htot : ∀ a b, le a b = true ∨ le b a = true)
    (htr : ∀ a b c, le a b = true → le b c = true → le a c = true)
    (x : α) (l : List α) (h : l.Pairwise (fun a b => le a b = true)) :
    (insertLe le x l).Pairwise (fun a b => le a b = true) := by
  induction l with
  | nil => simp [insertLe]
  | cons y ys ih =>
    rcases List.pairwise_cons.mp h with ⟨hy, hys⟩
    simp only [insertLe]
    by_cases hxy : le x y
    · simp only [hxy, if_pos]
      refine List.pairwise_cons.mpr ⟨?_, h⟩
      intro b hb
      rcases List.mem_cons.mp hb with rfl | hb
      · exact hxy
      · exact htr x y b hxy (hy b hb)
    · simp only [hxy, if_neg]
      refine List.pairwise_cons.mpr ⟨?_, ih hys⟩
      intro b hb
      rcases (mem_insertLe le b x ys).mp hb with rfl | hb
      · rcases htot b y with h1 | h1
        · exact absurd h1 hxy
        · exact h1
      · exact hy b hb

theorem pairwise_isort {α : Type} (le : α → α → Bool)
    (htot : ∀ a b, le a b = true ∨ le b a = true)
    (htr : ∀ a b c, le a b = true → le b c = true → le a c = true)
    (l : List α) : (isort le l).Pairwise (fun a b => le a b = true) := by
  induction l with
  | nil => simp [isort]
  | cons x xs ih => exact pairwise_insertLe le htot htr x (isort le xs) ih

theorem sublist_insertLe_self {α : Type} (le : α → α → Bool) (x : α) (l : List α) :
    List.Sublist l (insertLe le x l) := by
  induction l with
  | nil => simp [insertLe]
  | cons y ys ih =>
    simp only [insertLe]
    by_cases h : le x y
    · simp only [h, if_pos]
      exact List.Sublist.cons x (List.Sublist.refl (y :: ys))
    · simp only [h, if_neg]
      exact List.Sublist.cons₂ y ih

theorem pair_sublist_insertLe {α : Type} (le : α → α → Bool) (x b : α)
    (l : List α) (hb : b ∈ l) (hle : le x b = true) :
    List.Sublist [x, b] (insertLe le x l) := by
  induction l with
  | nil => cases hb
  | cons y ys ih =>
    simp only [insertLe]
    by_cases h : le x y
    · simp only [h, if_pos]
      exact List.Sublist.cons₂ x (List.singleton_sublist.mpr hb)
    · simp only [h, if_neg]
      rcases List.mem_cons.mp hb with rfl | hb2
      · exact absurd hle h
      · exact List.Sublist.cons y (ih hb2)

theorem isort_stable {α : Type} (le : α → α → Bool) (a b : α) (l : List α)
    (hle : le a b = true) (h : List.Sublist [a, b] l) :
    List.Sublist [a, b] (isort le l) := by
  induction l with
  | nil => cases h
  | cons x xs ih =>
    cases h with
    | cons _ h' =>
      exact (ih h').trans (sublist_insertLe_self le x (isort le xs))
    | cons₂ _ h' =>
      have hbmem : b ∈ isort le xs :=
        (mem_isort le b xs).mpr (List.singleton_sublist.mp h')
      exact pair_sublist_insertLe le a b (isort le xs) hbmem hle

theorem mem_addUnique (x y : String) (l : List String) :
    x ∈ addUnique l y ↔ x ∈ l ∨ x = y := by
  unfold addUnique
  by_cases h : l.contains y = true
  · rw [if_pos h]
    constructor
    · exact Or.inl
    · rintro (hx | rfl)
      · exact hx
      · exact List.elem_iff.mp h
  · rw [if_neg h]
    simp only [List.mem_append, List.mem_singleton]

theorem mem_foldl_addUnique (x : String) (l acc : List String) :
    x ∈ l.foldl addUnique acc ↔ x ∈ acc ∨ x ∈ l := by
  induction l generalizing acc with
  | nil => simp
  | cons a l ih =>
    simp only [List.foldl_cons, ih, mem_addUnique, List.mem_cons]
    tauto

theorem mem_dedupList (x : String) (l : List String) :
    x ∈ dedupList l ↔ x ∈ l := by
  unfold dedupList
  simp [mem_foldl_addUnique]

theorem mapGet_isSome_iff {α : Type} (m : List (String × α)) (k : String) :
    (mapGet m k).isSome = true ↔ ∃ p ∈ m, p.1 = k := by
  induction m with
  | nil => simp [mapGet]
  | cons p rest ih =>
    obtain ⟨k', v⟩ := p
    simp only [mapGet]
    by_cases h : k' = k
    · rw [if_pos h]
      subst h
      simp only [Option.isSome_some, List.mem_cons, true_iff]
      exact ⟨(k', v), Or.inl rfl, rfl⟩
    · rw [if_neg h]
      rw [ih]
      constructor
      · rintro ⟨p, hp, rfl⟩
        exact ⟨p, List.mem_cons.mpr (Or.inr hp), rfl⟩
      · rintro ⟨p, hp, hk⟩
        rcases List.mem_cons.mp hp with rfl | hp2
        · exact absurd hk h
        · exact ⟨p, hp2, hk⟩

theorem mem_groupIds (id : String) (g : List TokenMatch) :
    id ∈ groupIds g ↔ ∃ m ∈ g, (mapGet m.docs id).isSome = true := by
  unfold groupIds
  rw [mem_dedupList]
  simp only [List.mem_flatMap, List.mem_map]
  constructor
  · rintro ⟨m, hm, p, hp, rfl⟩
    exact ⟨m, hm, (mapGet_isSome_iff m.docs p.1).mpr ⟨p, hp, rfl⟩⟩
  · rintro ⟨m, hm, hs⟩
    obtain ⟨p, hp, hk⟩ := (mapGet_isSome_iff m.docs id).mp hs
    exact ⟨m, hm, p, hp, hk⟩

theorem mem_intersectionAux (id : String) (gs : List (List TokenMatch))
    (acc : List String) :
    id ∈ intersectionAux acc gs ↔ id ∈ acc ∧ ∀ g ∈ gs, id ∈ groupIds g := by
  induction gs generalizing acc with
  | nil => simp [intersectionAux]
  | cons g rest ih =>
    simp only [intersectionAux]
    have hnext : ∀ x, x ∈ acc.filter (fun y => (groupIds g).contains y) ↔
        x ∈ acc ∧ x ∈ groupIds g := by
      intro x
      rw [List.mem_filter]
      constructor
      · rintro ⟨h1, h2⟩; exact ⟨h1, List.elem_iff.mp h2⟩
      · rintro ⟨h1, h2⟩; exact ⟨h1, List.elem_iff.mpr h2⟩
    by_cases he : (acc.filter (fun y => (groupIds g).contains y)).isEmpty = true
    · rw [if_pos he]
      rw [List.isEmpty_iff] at he
      constructor
      · intro hx
        rw [he] at hx
        cases hx
      · rintro ⟨h1, hall⟩
        have hmem : id ∈ acc.filter (fun y => (groupIds g).contains y) :=
          (hnext id).mpr ⟨h1, hall g (by simp)⟩
        rw [he] at hmem
        cases hmem
    · rw [if_neg he, ih]
      simp only [hnext, List.forall_mem_cons]
      tauto

theorem mem_intersection (id : String) (g : List TokenMatch)
    (rest : List (List TokenMatch)) :
    id ∈ MiniSearch.intersection (g :: rest) ↔
      id ∈ groupIds g ∧ ∀ g' ∈ rest, id ∈ groupIds g' := by
  simp only [MiniSearch.intersection]
  by_cases he : (groupIds g).isEmpty = true
  · rw [if_pos he]
    rw [List.isEmpty_iff] at he
    rw [he]
    simp
  · rw [if_neg he]
    exact mem_intersectionAux id rest (groupIds g)

theorem intersection_eq_nil_of_mem_nil (groups : List (List TokenMatch))
    (h : [] ∈ groups) : MiniSearch.intersection groups = [] := by
  cases groups with
  | nil => rfl
  | cons g rest =>
    rw [List.eq_nil_iff_forall_not_mem]
    intro id hid
    rw [mem_intersection] at hid
    rcases List.mem_cons.mp h with rfl | hmem
    · rw [mem_groupIds] at hid
      obtain ⟨⟨m, hm, _⟩, _⟩ := hid
      cases hm
    · have h2 := hid.2 [] hmem
      rw [mem_groupIds] at h2
      obtain ⟨m, hm, _⟩ := h2
      cases hm

theorem mem_lookupTerm_pfx (ms : MiniSearch) (term tok : String)
    (docs : List (String × Nat)) :
    ({ token := tok, docs := docs } : TokenMatch) ∈ ms.lookupTerm term true ↔
      (tok, docs) ∈ ms.invertedIndex ∧ strStartsWith tok term = true := by
  simp only [MiniSearch.lookupTerm, Bool.not_true, Bool.false_eq_true, if_false]
  rw [List.mem_filterMap]
  constructor
  · rintro ⟨p, hp, hf⟩
    by_cases hs : strStartsWith p.1 term = true
    · rw [if_pos hs] at hf
      have hf2 := Option.some.inj hf
      have h1 : p.1 = tok := congrArg TokenMatch.token hf2
      have h2 : p.2 = docs := congrArg TokenMatch.docs hf2
      refine ⟨?_, ?_⟩
      · rw [← h1, ← h2]
        exact hp
      · rw [← h1]
        exact hs
    · rw [if_neg hs] at hf
      cases hf
  · rintro ⟨hmem, hs⟩
    refine ⟨(tok, docs), hmem, ?_⟩
    rw [if_pos hs]

theorem mem_groupIds_lookup (ms : MiniSearch) (t id : String) :
    id ∈ groupIds (ms.lookupTerm t true) ↔
      ∃ tok docs, (tok, docs) ∈ ms.invertedIndex ∧ strStartsWith tok t = true ∧
        (mapGet docs id).isSome = true := by
  rw [mem_groupIds]
  constructor
  · rintro ⟨m, hm, hs⟩
    obtain ⟨tok, docs⟩ := m
    rw [mem_lookupTerm_pfx] at hm
    exact ⟨tok, docs, hm.1, hm.2, hs⟩
  · rintro ⟨tok, docs, hmem, hsw, hs⟩
    exact ⟨{ token := tok, docs := docs },
      (mem_lookupTerm_pfx ms t tok docs).mpr ⟨hmem, hsw⟩, hs⟩

/-- Claim C6: in prefix mode a query term matches every indexed token
that starts with it; the document-id sets of all tokens matched by one
term are unioned (groupIds of the lookup), and the per-term unions are
intersected across all query terms to give the candidate ids. -/
theorem claim_C6 :
    (∀ (ms : MiniSearch) (term tok : String) (docs : List (String × Nat)),
      ({ token := tok, docs := docs } : TokenMatch) ∈ ms.lookupTerm term true ↔
        (tok, docs) ∈ ms.invertedIndex ∧ strStartsWith tok term = true) ∧
    (∀ (ms : MiniSearch) (terms : List String) (id : String), terms ≠ [] →
      (id ∈ MiniSearch.intersection (terms.map (fun t => ms.lookupTerm t true)) ↔
        ∀ t ∈ terms, ∃ tok docs, (tok, docs) ∈ ms.invertedIndex ∧
          strStartsWith tok t = true ∧ (mapGet docs id).isSome = true)) := by
  refine ⟨mem_lookupTerm_pfx, ?_⟩
  intro ms terms id hne
  cases terms with
  | nil => exact absurd rfl hne
  | cons t0 rest =>
    rw [List.map_cons, mem_intersection, List.forall_mem_cons,
      mem_groupIds_lookup]
    constructor
    · rintro ⟨h0, hall⟩
      refine ⟨h0, ?_⟩
      intro t ht
      have := hall (ms.lookupTerm t true) (List.mem_map_of_mem _ ht)
      exact (mem_groupIds_lookup ms t id).mp this
    · rintro ⟨h0, hall⟩
      refine ⟨h0, ?_⟩
      intro g hg
      obtain ⟨t, ht, rfl⟩ := List.mem_map.mp hg
      exact (mem_groupIds_lookup ms t id).mpr (hall t ht)

/-- Claim C1: if any term of a non-empty tokenized query resolves to zero
matching index entries (no exact token without prefix mode, no indexed
token starting with the term in prefix mode), then search returns the
empty result list, regardless of the other terms. -/
theorem claim_C1 (ms : MiniSearch) (q : Option String) (opts : SearchOptions)
    (t : String) (ht : t ∈ MiniSearch.tokenize q)
    (hz : if opts.pfx = true
      then ∀ p ∈ ms.invertedIndex, strStartsWith p.1 t = false
      else mapGet ms.invertedIndex t = none) :
    ms.search q opts = [] := by
  have hlook : ms.lookupTerm t opts.pfx = [] := by
    cases hp : opts.pfx with
    | false =>
      rw [hp, if_neg (by simp)] at hz
      simp [MiniSearch.lookupTerm, hz]
    | true =>
      rw [hp, if_pos rfl] at hz
      simp only [MiniSearch.lookupTerm, hp, Bool.not_true, Bool.false_eq_true,
        if_false]
      rw [List.filterMap_eq_nil_iff]
      intro p hp2
      rw [hz p hp2]
      simp
  have hne : (MiniSearch.tokenize q).isEmpty = false := by
    cases h : MiniSearch.tokenize q with
    | nil => rw [h] at ht; cases ht
    | cons a l => rfl
  have hany : ((MiniSearch.tokenize q).map (fun t' => ms.lookupTerm t' opts.pfx)).any
      (fun g => g.isEmpty) = true := by
    rw [List.any_eq_true]
    refine ⟨ms.lookupTerm t opts.pfx, List.mem_map_of_mem _ ht, ?_⟩
    rw [hlook]
    rfl
  simp only [MiniSearch.search, hne, Bool.false_eq_true, if_false, hany, if_true]

theorem addAllList_append (ms : MiniSearch) (l1 l2 : List AddArg) :
    ms.addAllList (l1 ++ l2) =
      match ms.addAllList l1 with
      | .ok m => m.addAllList l2
      | .error e => .error e := by
  induction l1 generalizing ms with
  | nil => simp [MiniSearch.addAllList]
  | cons d rest ih =>
    simp only [List.cons_append, MiniSearch.addAllList]
    cases ms.add d with
    | ok m => exact ih m
    | error e => rfl

/-- Claim C5: add on a document whose id is undefined or null fails with
the invalid-document error, and the error propagates out of addAll,
halting the bulk load at that document: whatever follows the invalid
document in the sequence, the outcome is the same error. -/
theorem claim_C5 :
    (∀ (ms : MiniSearch) (d : Doc), d.id = none →
      ms.add (.object d) = .error "MiniSearch: document is missing id field") ∧
    (∀ (ms ms1 : MiniSearch) (ds1 : List AddArg) (d : Doc) (ds2 : List AddArg),
      ms.addAllList ds1 = .ok ms1 → d.id = none →
      ms.addAll (.array (ds1 ++ .object d :: ds2)) =
        .error "MiniSearch: document is missing id field") := by
  have h1 : ∀ (ms : MiniSearch) (d : Doc), d.id = none →
      ms.add (.object d) = .error "MiniSearch: document is missing id field" := by
    intro ms d hid
    simp [MiniSearch.add, hid]
  refine ⟨h1, ?_⟩
  intro ms ms1 ds1 d ds2 hok hid
  show ms.addAllList (ds1 ++ .object d :: ds2) = _
  rw [addAllList_append, hok]
  simp only [MiniSearch.addAllList, h1 ms1 d hid]

/-- Claim C10: add called with a null, undefined or non-object argument
returns without raising and leaves the state (document store and
inverted index alike) unchanged, in contrast with the invalid-document
error raised for an object document without id. -/
theorem claim_C10 :
    (∀ ms : MiniSearch, ms.add .nonObject = .ok ms) ∧
    (∀ (ms : MiniSearch) (d : Doc), d.id = none →
      ms.add (.object d) = .error "MiniSearch: document is missing id field") := by
  constructor
  · intro ms
    rfl
  · intro ms d hid
    simp [MiniSearch.add, hid]

/-- Claim C9: the facet predicate accepts a document iff every set
filter matches it, each unset (empty string) selection imposing no
constraint; with no filters set every document is accepted. -/
theorem claim_C9 :
    (∀ (f : Filters) (doc : Doc),
      filterDocument f doc = true ↔
        ((f.language ≠ "" → doc.language = some f.language) ∧
         (f.type ≠ "" → doc.type.getD "" = f.type) ∧
         (f.tag ≠ "" → ∃ l, doc.tags = some l ∧ f.tag ∈ l) ∧
         (f.year ≠ "" → docYear doc = f.year))) ∧
    (∀ doc : Doc, filterDocument { language := "", type := "", tag := "", year := "" } doc = true) := by
  constructor
  · intro f doc
    unfold filterDocument
    by_cases hl : f.language = "" <;>
      by_cases htp : f.type = "" <;>
        by_cases htg : f.tag = "" <;>
          by_cases hy : f.year = "" <;>
            cases hdl : doc.language <;>
              cases hdt : doc.tags <;>
                simp [hl, htp, htg, hy, hdl, hdt, List.elem_iff]
  · intro doc
    simp [filterDocument]

/-- Claim C4 as stated is false on the code: with the token list
[blog, blogging] the word blogging IS double-wrapped, because after the
longest token is wrapped, the shorter token still matches inside the
inserted markers. -/
theorem claim_C4_counterexample :
    highlightText (some "blogging") ["blog", "blogging"] =
      "<mark><mark>blog</mark>ging</mark>" ∧
    highlightText (some "blogging") ["blog", "blogging"] ≠
      "<mark>blogging</mark>" := by
  constructor
  · decide
  · decide

/-- Claim C4 amended: highlighting escapes first and processes tokens
longest first, so the longest token is wrapped in full; but a shorter
token that is a substring of a longer one wraps its occurrence again
inside the already inserted markers (nested marks); with an empty token
list or blank text the output is exactly the escaped text. -/
theorem claim_C4_amended :
    (∀ (t : Option String) (tokens : List String), tokens = [] →
      highlightText t tokens = escapeHtml (t.getD "")) ∧
    (∀ (t : Option String) (tokens : List String), isBlank (t.getD "") = true →
      highlightText t tokens = escapeHtml (t.getD "")) ∧
    highlightText (some "blogging") ["blog", "blogging"] =
      "<mark><mark>blog</mark>ging</mark>" ∧
    highlightText (some "Blog") ["blog"] = "<mark>Blog</mark>" := by
  refine ⟨?_, ?_, by decide, by decide⟩
  · rintro t tokens rfl
    simp [highlightText]
  · intro t tokens hb
    simp [highlightText, hb]

theorem collectLe_total (a b : SearchResult) :
    collectLe a b = true ∨ collectLe b a = true := by
  unfold collectLe
  rcases Int.le_total (tsZ b.doc) (tsZ a.doc) with h | h
  · exact Or.inl (decide_eq_true h)
  · exact Or.inr (decide_eq_true h)

theorem collectLe_trans (a b c : SearchResult) (h1 : collectLe a b = true)
    (h2 : collectLe b c = true) : collectLe a c = true := by
  unfold collectLe at *
  exact decide_eq_true (le_trans (of_decide_eq_true h2) (of_decide_eq_true h1))

/-- Claim C7: with an empty tokenized query (in particular a null or
empty query input), search returns all stored documents passing the
filter, each scored 0, sorted by descending timestamp (a non-numeric
timestamp counting as 0). -/
theorem claim_C7 (ms : MiniSearch) (q : Option String) (opts : SearchOptions)
    (h : MiniSearch.tokenize q = []) :
    (MiniSearch.tokenize (none : Option String) = [] ∧
      MiniSearch.tokenize (some "") = []) ∧
    ms.search q opts = ms.collectAll opts.filter ∧
    (∀ r ∈ ms.search q opts, r.score = 0) ∧
    List.Perm (ms.search q opts)
      (((ms.documents.map Prod.snd).filter (fun d => passFilter opts.filter d)).map
        (fun d => { score := 0, doc := d })) ∧
    (ms.search q opts).Pairwise (fun a b => tsZ b.doc ≤ tsZ a.doc) := by
  have hs : ms.search q opts = ms.collectAll opts.filter := by
    simp [MiniSearch.search, h]
  have hperm : List.Perm (ms.search q opts)
      (((ms.documents.map Prod.snd).filter (fun d => passFilter opts.filter d)).map
        (fun d => ({ score := 0, doc := d } : SearchResult))) := by
    rw [hs]
    exact isort_perm collectLe _
  refine ⟨⟨rfl, rfl⟩, hs, ?_, hperm, ?_⟩
  · intro r hr
    have hr2 := hperm.mem_iff.mp hr
    obtain ⟨d, _, rfl⟩ := List.mem_map.mp hr2
    rfl
  · rw [hs]
    unfold MiniSearch.collectAll
    have hp := pairwise_isort collectLe collectLe_total collectLe_trans
      (((ms.documents.map Prod.snd).filter (fun d => passFilter opts.filter d)).map
        (fun d => ({ score := 0, doc := d } : SearchResult)))
    exact hp.imp (fun hab => of_decide_eq_true hab)

theorem resultLe_iff (a b : SearchResult) :
    resultLe a b = true ↔
      b.score < a.score ∨ (a.score = b.score ∧ tsZ b.doc ≤ tsZ a.doc) := by
  unfold resultLe
  by_cases h : a.score = b.score
  · rw [if_pos h]
    simp [h]
  · rw [if_neg h]
    simp [h]

theorem resultLe_total (a b : SearchResult) :
    resultLe a b = true ∨ resultLe b a = true := by
  rw [resultLe_iff, resultLe_iff]
  rcases Int.le_total (tsZ b.doc) (tsZ a.doc) with h | h <;> omega

theorem resultLe_trans (a b c : SearchResult) (h1 : resultLe a b = true)
    (h2 : resultLe b c = true) : resultLe a c = true := by
  rw [resultLe_iff] at h1 h2 ⊢
  rcases h1 with h1 | ⟨h1, h1t⟩ <;> rcases h2 with h2 | ⟨h2, h2t⟩ <;> omega

theorem score_zero_of_mem_collectAll (ms : MiniSearch) (fl : Option (Doc → Bool))
    (r : SearchResult) (hr : r ∈ ms.collectAll fl) : r.score = 0 := by
  unfold MiniSearch.collectAll at hr
  rw [mem_isort] at hr
  obtain ⟨d, _, rfl⟩ := List.mem_map.mp hr
  rfl

/-- Claim C3: search results are sorted by descending score with ties by
descending timestamp (a non-numeric timestamp counting as 0); the sort
applied to the built result list is stable, so results with equal score
and equal timestamp keep their relative order from the pre-sort list
(and likewise for the timestamp-only sort of the empty-query path). -/
theorem claim_C3 :
    (∀ (ms : MiniSearch) (q : Option String) (opts : SearchOptions),
      (ms.search q opts).Pairwise
        (fun a b => b.score < a.score ∨ (a.score = b.score ∧ tsZ b.doc ≤ tsZ a.doc))) ∧
    (∀ (ms : MiniSearch) (q : Option String) (opts : SearchOptions),
      MiniSearch.tokenize q ≠ [] →
      ms.search q opts = isort resultLe
        (ms.buildResults
          (MiniSearch.intersection
            ((MiniSearch.tokenize q).map (fun t => ms.lookupTerm t opts.pfx)))
          ((MiniSearch.tokenize q).map (fun t => ms.lookupTerm t opts.pfx))
          opts.filter)) ∧
    (∀ (l : List SearchResult) (a b : SearchResult), a.score = b.score →
      tsZ a.doc = tsZ b.doc → List.Sublist [a, b] l →
      List.Sublist [a, b] (isort resultLe l)) ∧
    (∀ (l : List SearchResult) (a b : SearchResult),
      tsZ a.doc = tsZ b.doc → List.Sublist [a, b] l →
      List.Sublist [a, b] (isort collectLe l)) := by
  refine ⟨?_, ?_, ?_, ?_⟩
  · intro ms q opts
    by_cases hq : (MiniSearch.tokenize q).isEmpty = true
    · have hs : ms.search q opts = ms.collectAll opts.filter := by
        simp only [MiniSearch.search, hq, if_true]
      rw [hs]
      have hp : (ms.collectAll opts.filter).Pairwise
          (fun a b : SearchResult => collectLe a b = true) := by
        unfold MiniSearch.collectAll
        exact pairwise_isort collectLe collectLe_total collectLe_trans _
      refine List.Pairwise.imp_of_mem ?_ hp
      intro a b ha hb hab
      have ha0 := score_zero_of_mem_collectAll ms opts.filter a ha
      have hb0 := score_zero_of_mem_collectAll ms opts.filter b hb
      exact Or.inr ⟨ha0.trans hb0.symm, of_decide_eq_true hab⟩
    · simp only [MiniSearch.search, hq, Bool.false_eq_true, if_false]
      by_cases hany : ((MiniSearch.tokenize q).map
          (fun t => ms.lookupTerm t opts.pfx)).any (fun g => g.isEmpty) = true
      · rw [if_pos hany]
        exact List.Pairwise.nil
      · rw [if_neg hany]
        by_cases hc : (MiniSearch.intersection ((MiniSearch.tokenize q).map
            (fun t => ms.lookupTerm t opts.pfx))).isEmpty = true
        · rw [if_pos hc]
          exact List.Pairwise.nil
        · rw [if_neg hc]
          have hp := pairwise_isort resultLe resultLe_total resultLe_trans
            (ms.buildResults
              (MiniSearch.intersection ((MiniSearch.tokenize q).map
                (fun t => ms.lookupTerm t opts.pfx)))
              ((MiniSearch.tokenize q).map (fun t => ms.lookupTerm t opts.pfx))
              opts.filter)
          exact hp.imp (fun hab => (resultLe_iff _ _).mp hab)
  · intro ms q opts hq
    have hq2 : (MiniSearch.tokenize q).isEmpty = false := by
      cases h : MiniSearch.tokenize q with
      | nil => exact absurd h hq
      | cons a l => rfl
    simp only [MiniSearch.search, hq2, Bool.false_eq_true, if_false]
    by_cases hany : ((MiniSearch.tokenize q).map
        (fun t => ms.lookupTerm t opts.pfx)).any (fun g => g.isEmpty) = true
    · rw [if_pos hany]
      obtain ⟨g, hg, hge⟩ := List.any_eq_true.mp hany
      rw [List.isEmpty_iff] at hge
      have hnil : MiniSearch.intersection ((MiniSearch.tokenize q).map
          (fun t => ms.lookupTerm t opts.pfx)) = [] :=
        intersection_eq_nil_of_mem_nil _ (hge ▸ hg)
      rw [hnil]
      rfl
    · rw [if_neg hany]
      by_cases hc : (MiniSearch.intersection ((MiniSearch.tokenize q).map
          (fun t => ms.lookupTerm t opts.pfx))).isEmpty = true
      · rw [if_pos hc]
        rw [List.isEmpty_iff] at hc
        rw [hc]
        rfl
      · rw [if_neg hc]
  · intro l a b hsc hts h
    refine isort_stable resultLe a b l ?_ h
    rw [resultLe_iff]
    exact Or.inr ⟨hsc, le_of_eq hts.symm⟩
  · intro l a b hts h
    refine isort_stable collectLe a b l ?_ h
    exact decide_eq_true (le_of_eq hts.symm)

theorem foldl_add_eq {α : Type} (f : α → Nat) (l : List α) (n : Nat) :
    l.foldl (fun s x => s + f x) n = n + (l.map f).sum := by
  induction l generalizing n with
  | nil => simp
  | cons a l ih =>
    simp only [List.foldl_cons, List.map_cons, List.sum_cons, ih]
    omega

theorem foldl_score_eq (id : String) (groups : List (List TokenMatch)) (n : Nat) :
    groups.foldl (fun s g => g.foldl (fun s2 m => s2 + (mapGet m.docs id).getD 0) s) n =
      n + (groups.map (fun g => (g.map (fun m => (mapGet m.docs id).getD 0)).sum)).sum := by
  induction groups generalizing n with
  | nil => simp
  | cons g rest ih =>
    simp only [List.foldl_cons, List.map_cons, List.sum_cons]
    rw [ih, foldl_add_eq]
    omega

theorem scoreDocument_eq (id : String) (groups : List (List TokenMatch)) :
    MiniSearch.scoreDocument id groups =
      (groups.map (fun g => (g.map (fun m => (mapGet m.docs id).getD 0)).sum)).sum := by
  unfold MiniSearch.scoreDocument
  rw [foldl_score_eq]
  omega

/-- Claim C2: every result of a non-empty query carries as score the sum,
over all query terms and all index tokens the term resolved to, of the
stored occurrence count of the document; in particular a single exact
term whose index entry lists only one document returns exactly that
document with the stored count as score. -/
theorem claim_C2 :
    (∀ (ms : MiniSearch) (q : Option String) (opts : SearchOptions)
        (r : SearchResult),
      r ∈ ms.search q opts → MiniSearch.tokenize q ≠ [] →
      ∃ id, mapGet ms.documents id = some r.doc ∧
        r.score = (((MiniSearch.tokenize q).map
            (fun t => ms.lookupTerm t opts.pfx)).map
          (fun g => (g.map (fun m => (mapGet m.docs id).getD 0)).sum)).sum) ∧
    (∀ (ms : MiniSearch) (d : Doc) (i tok : String) (c : Nat) (q : Option String)
        (fl : Option (Doc → Bool)),
      MiniSearch.tokenize q = [tok] →
      mapGet ms.invertedIndex tok = some [(i, c)] →
      mapGet ms.documents i = some d →
      passFilter fl d = true →
      ms.search q { filter := fl, pfx := false } = [{ score := c, doc := d }]) := by
  constructor
  · intro ms q opts r hr hq
    have hq2 : (MiniSearch.tokenize q).isEmpty = false := by
      cases h : MiniSearch.tokenize q with
      | nil => exact absurd h hq
      | cons a l => rfl
    rw [MiniSearch.search] at hr
    simp only [hq2, Bool.false_eq_true, if_false] at hr
    by_cases hany : ((MiniSearch.tokenize q).map
        (fun t => ms.lookupTerm t opts.pfx)).any (fun g => g.isEmpty) = true
    · rw [if_pos hany] at hr
      cases hr
    · rw [if_neg hany] at hr
      by_cases hc : (MiniSearch.intersection ((MiniSearch.tokenize q).map
          (fun t => ms.lookupTerm t opts.pfx))).isEmpty = true
      · rw [if_pos hc] at hr
        cases hr
      · rw [if_neg hc, mem_isort] at hr
        unfold MiniSearch.buildResults at hr
        obtain ⟨id, _, hf⟩ := List.mem_filterMap.mp hr
        refine ⟨id, ?_⟩
        cases hget : mapGet ms.documents id with
        | none =>
          rw [hget] at hf
          cases hf
        | some document =>
          rw [hget] at hf
          dsimp only at hf
          by_cases hpass : passFilter opts.filter document = true
          · rw [if_pos hpass] at hf
            have hf2 := Option.some.inj hf
            subst hf2
            exact ⟨rfl, scoreDocument_eq id _⟩
          · rw [if_neg hpass] at hf
            cases hf
  · intro ms d i tok c q fl hq hidx hdoc hpass
    rw [MiniSearch.search]
    rw [hq]
    have hlook : ms.lookupTerm tok false = [{ token := tok, docs := [(i, c)] }] := by
      simp [MiniSearch.lookupTerm, hidx]
    simp only [List.isEmpty_cons, Bool.false_eq_true, if_false, List.map_cons,
      List.map_nil, hlook]
    have hany : ([[{ token := tok, docs := [(i, c)] }]] :
        List (List TokenMatch)).any (fun g => g.isEmpty) = false := rfl
    rw [hany]
    have hint : MiniSearch.intersection [[{ token := tok, docs := [(i, c)] }]] = [i] := by
      simp [MiniSearch.intersection, groupIds, dedupList, addUnique,
        intersectionAux]
    simp only [Bool.false_eq_true, if_false, hint]
    have hbuild : ms.buildResults [i] [[{ token := tok, docs := [(i, c)] }]] fl =
        [{ score := c, doc := d }] := by
      unfold MiniSearch.buildResults
      simp only [List.filterMap_cons, List.filterMap_nil, hdoc, hpass, if_pos]
      have hscore : MiniSearch.scoreDocument i [[{ token := tok, docs := [(i, c)] }]] = c := by
        simp [MiniSearch.scoreDocument, mapGet]
      rw [hscore]
    rw [List.isEmpty_cons]
    simp only [Bool.false_eq_true, if_false, hbuild]
    rfl

/-- The stored count of one (token, id) cell of an inverted index. -/
def indexCount (idx : List (String × List (String × Nat))) (token id : String) : Nat :=
  match mapGet idx token with
  | none => 0
  | some dm => (mapGet dm id).getD 0

/-- The total number of occurrences of a token over the configured,
present fields of a document: what one add contributes to the count of
this document for this token. -/
def docTokenCount (flds : List String) (d : Doc) (t : String) : Nat :=
  (flds.map (fun f =>
    match mapGet d.docFields f with
    | none => 0
    | some v => (MiniSearch.tokenize (some v.joined)).count t)).sum

theorem mapGet_mapSet_self {α : Type} (m : List (String × α)) (k : String) (v : α) :
    mapGet (mapSet m k v) k = some v := by
  induction m with
  | nil => simp [mapGet, mapSet]
  | cons p rest ih =>
    obtain ⟨k', v'⟩ := p
    simp only [mapSet]
    by_cases h : k' = k
    · rw [if_pos h]
      simp [mapGet]
    · rw [if_neg h]
      simp [mapGet, h, ih]

theorem mapGet_mapSet_ne {α : Type} (m : List (String × α)) (k k' : String) (v : α)
    (h : k' ≠ k) : mapGet (mapSet m k v) k' = mapGet m k' := by
  induction m with
  | nil =>
    simp only [mapSet, mapGet]
    rw [if_neg (fun e => h e.symm)]
  | cons p rest ih =>
    obtain ⟨k0, v0⟩ := p
    simp only [mapSet]
    by_cases h0 : k0 = k
    · rw [if_pos h0]
      simp only [mapGet]
      rw [if_neg (fun e => h e.symm), if_neg (fun e => h (h0 ▸ e).symm)]
    · rw [if_neg h0]
      simp only [mapGet, ih]

theorem indexCount_bumpToken_self (idx : List (String × List (String × Nat)))
    (t i : String) : indexCount (bumpToken idx t i) t i = indexCount idx t i + 1 := by
  unfold indexCount bumpToken
  rw [mapGet_mapSet_self]
  dsimp only
  rw [mapGet_mapSet_self]
  cases h : mapGet idx t with
  | none => simp [h, mapGet]
  | some dm => simp [h]

theorem indexCount_bumpToken_ne_token (idx : List (String × List (String × Nat)))
    (t t' i i' : String) (h : t' ≠ t) :
    indexCount (bumpToken idx t i) t' i' = indexCount idx t' i' := by
  unfold indexCount bumpToken
  rw [mapGet_mapSet_ne _ _ _ _ h]

theorem indexCount_indexTokens (toks : List String)
    (idx : List (String × List (String × Nat))) (t i : String) :
    indexCount (indexTokens idx toks i) t i = indexCount idx t i + toks.count t := by
  induction toks generalizing idx with
  | nil => simp [indexTokens]
  | cons a toks ih =>
    show indexCount (indexTokens (bumpToken idx a i) toks i) t i = _
    rw [ih]
    by_cases h : a = t
    · subst h
      rw [indexCount_bumpToken_self]
      rw [List.count_cons_self]
      omega
    · rw [indexCount_bumpToken_ne_token idx a t i i (fun e => h e.symm)]
      rw [List.count_cons_of_ne (fun e => h e.symm)]

theorem indexCount_fieldsFold (flds : List String) (d : Doc)
    (idx : List (String × List (String × Nat))) (t i : String) :
    indexCount (flds.foldl (fun acc field =>
      match mapGet d.docFields field with
      | none => acc
      | some value => indexTokens acc (MiniSearch.tokenize (some value.joined)) i)
      idx) t i = indexCount idx t i + docTokenCount flds d t := by
  induction flds generalizing idx with
  | nil => simp [docTokenCount]
  | cons f flds ih =>
    simp only [List.foldl_cons]
    cases h : mapGet d.docFields f with
    | none =>
      rw [ih]
      simp only [docTokenCount, List.map_cons, List.sum_cons, h]
      omega
    | some v =>
      rw [ih, indexCount_indexTokens]
      simp only [docTokenCount, List.map_cons, List.sum_cons, h]
      omega

theorem add_ok (ms : MiniSearch) (d : Doc) (i : String) (hid : d.id = some i) :
    ms.add (.object d) = .ok
      { fields := ms.fields,
        invertedIndex := ms.fields.foldl (fun acc field =>
          match mapGet d.docFields field with
          | none => acc
          | some value => indexTokens acc (MiniSearch.tokenize (some value.joined)) i)
          ms.invertedIndex,
        documents := mapSet ms.documents i d } := by
  simp only [MiniSearch.add, hid]

/-- Claim C8: re-adding a document under an id already present
overwrites the stored document but does not retract the earlier token
contributions: every token count of this id grows by the token
occurrences of each add, accumulating across the two calls. -/
theorem claim_C8 (ms : MiniSearch) (d1 d2 : Doc) (i : String)
    (h1 : d1.id = some i) (h2 : d2.id = some i) :
    ∃ ms1 ms2, ms.add (.object d1) = .ok ms1 ∧ ms1.add (.object d2) = .ok ms2 ∧
      mapGet ms1.documents i = some d1 ∧
      mapGet ms2.documents i = some d2 ∧
      (∀ t, indexCount ms1.invertedIndex t i =
        indexCount ms.invertedIndex t i + docTokenCount ms.fields d1 t) ∧
      (∀ t, indexCount ms2.invertedIndex t i =
        indexCount ms.invertedIndex t i + docTokenCount ms.fields d1 t
          + docTokenCount ms.fields d2 t) := by
  refine ⟨_, _, add_ok ms d1 i h1, add_ok _ d2 i h2, ?_, ?_, ?_, ?_⟩
  · exact mapGet_mapSet_self ms.documents i d1
  · exact mapGet_mapSet_self _ i d2
  · intro t
    exact indexCount_fieldsFold ms.fields d1 ms.invertedIndex t i
  · intro t
    rw [indexCount_fieldsFold, indexCount_fieldsFold]

/-! Concrete witness data. -/

def wDocA : Doc := ⟨some "a", [("title", .str "Hello World")], some "en", some "post", some ["x", "y"], some "2024-01-01T00:00:00Z", some 10⟩

def wDocB : Doc := ⟨some "b", [("title", .str "Hello There")], some "en", some "post", some ["y"], some "2023-05-01T00:00:00Z", some 20⟩

def wDocC : Doc := ⟨some "c", [("title", .str "hello hello")], none, none, none, none, some 5⟩

def wBadDoc : Doc := ⟨none, [("title", .str "No Id")], none, none, none, none, none⟩

def wMs0 : MiniSearch := ⟨["title"], [], []⟩

def wMs1 : MiniSearch := ⟨["title"], [("hello", [("a", 1)]), ("world", [("a", 1)])], [("a", wDocA)]⟩

def wMs : MiniSearch := ⟨["title"], [("hello", [("a", 1), ("b", 1)]), ("world", [("a", 1)]), ("there", [("b", 1)])], [("a", wDocA), ("b", wDocB)]⟩

def wMs2 : MiniSearch := ⟨["title"], [("hello", [("c", 2)])], [("c", wDocC)]⟩

def wMsP : MiniSearch := ⟨["title"], [("blog", [("a", 1)]), ("blogging", [("a", 1), ("b", 1)])], [("a", wDocA), ("b", wDocB)]⟩

def wRes : SearchResult := ⟨1, wDocA⟩

/-- Witness for C1 at a concrete state: the query has a matching first
term and a second term with zero index matches, and search is empty. -/
theorem claim_C1_witness :
    wMs.search (some "hello zzz") { filter := none, pfx := false } = [] :=
  claim_C1 wMs (some "hello zzz") { filter := none, pfx := false } "zzz"
    (by decide) (by decide)

/-- Witness for C2 at a concrete state: a term indexed only for one
document with count 2 returns exactly that document scored 2, and the
general sum formula holds for that result. -/
theorem claim_C2_witness :
    (∃ id, mapGet wMs2.documents id = some wDocC ∧
      (2 : Nat) = (((MiniSearch.tokenize (some "hello")).map
          (fun t => wMs2.lookupTerm t false)).map
        (fun g => (g.map (fun m => (mapGet m.docs id).getD 0)).sum)).sum) ∧
    wMs2.search (some "hello") { filter := none, pfx := false } =
      [{ score := 2, doc := wDocC }] := by
  have h2 := claim_C2.2 wMs2 wDocC "c" "hello" 2 (some "hello") none
    (by decide) (by decide) (by decide) (by decide)
  refine ⟨?_, h2⟩
  have h1 := claim_C2.1 wMs2 (some "hello") { filter := none, pfx := false }
    { score := 2, doc := wDocC } (by rw [h2]; exact List.mem_singleton.mpr rfl)
    (by decide)
  exact h1

/-- Witness for C3 at concrete inputs: the stable-pair property of the
result sort, and the sorted shape of a concrete search. -/
theorem claim_C3_witness :
    List.Sublist [wRes, wRes] (isort resultLe [wRes, wRes]) ∧
    (wMs.search (some "hello") { filter := none, pfx := false }).Pairwise
      (fun a b => b.score < a.score ∨ (a.score = b.score ∧ tsZ b.doc ≤ tsZ a.doc)) :=
  ⟨claim_C3.2.2.1 [wRes, wRes] wRes wRes rfl rfl (List.Sublist.refl [wRes, wRes]),
   claim_C3.1 wMs (some "hello") { filter := none, pfx := false }⟩

/-- Witness for the amended C4 at concrete inputs: the no-token and
blank-text branches return only the escaped text. -/
theorem claim_C4_amended_witness :
    highlightText (some "a & b") [] = escapeHtml ((some "a & b").getD "") ∧
    highlightText (some "   ") ["blog"] = escapeHtml ((some "   ").getD "") :=
  ⟨claim_C4_amended.1 (some "a & b") [] rfl,
   claim_C4_amended.2.1 (some "   ") ["blog"] (by decide)⟩

/-- Witness for C5 at a concrete sequence: the invalid document halts
addAll with the invalid-document error. -/
theorem claim_C5_witness :
    wMs0.addAll (.array [.object wDocA, .object wBadDoc, .object wDocB]) =
      .error "MiniSearch: document is missing id field" :=
  claim_C5.2 wMs0 wMs1 [.object wDocA] wBadDoc [.object wDocB]
    rfl rfl

/-- Witness for C6 at a concrete state: the term blo prefix-matches the
indexed tokens blog and blogging, and document a is a candidate. -/
theorem claim_C6_witness :
    "a" ∈ MiniSearch.intersection
      (["blo"].map (fun t => wMsP.lookupTerm t true)) :=
  (claim_C6.2 wMsP ["blo"] "a" (by decide)).mpr (by
    intro t ht
    rw [List.mem_singleton] at ht
    subst ht
    exact ⟨"blog", [("a", 1)], by decide, by decide, by decide⟩)

/-- Witness for C7 at a concrete state: the empty query equals the
browsing mode result. -/
theorem claim_C7_witness :
    wMs.search (some "") { filter := none, pfx := true } = wMs.collectAll none :=
  (claim_C7 wMs (some "") { filter := none, pfx := true } rfl).2.1

/-- Witness for C8 at a concrete state: adding the same document twice
doubles its token counts. -/
theorem claim_C8_witness :
    ∃ ms1 ms2, wMs0.add (.object wDocC) = .ok ms1 ∧
      ms1.add (.object wDocC) = .ok ms2 ∧
      mapGet ms1.documents "c" = some wDocC ∧
      mapGet ms2.documents "c" = some wDocC ∧
      (∀ t, indexCount ms1.invertedIndex t "c" =
        indexCount wMs0.invertedIndex t "c" + docTokenCount wMs0.fields wDocC t) ∧
      (∀ t, indexCount ms2.invertedIndex t "c" =
        indexCount wMs0.invertedIndex t "c" + docTokenCount wMs0.fields wDocC t
          + docTokenCount wMs0.fields wDocC t) :=
  claim_C8 wMs0 wDocC wDocC "c" rfl rfl

/-- Witness for C9 at a concrete document: the year filter 2024 accepts
a document dated 2024 with all other filters unset. -/
theorem claim_C9_witness :
    filterDocument { language := "", type := "", tag := "", year := "2024" } wDocA = true :=
  (claim_C9.1 { language := "", type := "", tag := "", year := "2024" } wDocA).mpr
    ⟨fun h => absurd rfl h, fun h => absurd rfl h, fun h => absurd rfl h,
     fun _ => by decide⟩

/-- Witness for C10 at a concrete state: the non-object no-op and the
missing-id error side by side. -/
theorem claim_C10_witness :
    wMs.add .nonObject = .ok wMs ∧
    wMs.add (.object wBadDoc) = .error "MiniSearch: document is missing id field" :=
  ⟨claim_C10.1 wMs, claim_C10.2 wMs wBadDoc rfl⟩
